import Mathlib

/-!
Verification of the core of `Elo_Ratings.py` (community Elo voting app):
the rating engine (`calculate_elo`), the selection sampler
(`aggressive_weighted_selection` and the close-rating candidate filter),
the participation ledger writer (`update_user_vote`), and the vote
orchestrator (`process_vote`).  Python floats appearing in purely
algebraic facts are modeled as real numbers; the spreadsheet values and
weights flowing through executable paths are modeled as rationals and
strings so that concrete runs evaluate inside Lean.
-/

set_option autoImplicit false

namespace CommunityRanks

/-! ### Rating engine (source lines 132–137)

`calculate_elo(winner_elo, loser_elo, k=24)` computes the two logistic
expected scores and returns the rounded updated ratings.  Ratings and `k`
are modeled as real numbers; `round` is integer rounding. -/

/-- Expected score of a rating `a` against a rating `b`:
`1 / (1 + 10 ** ((b - a) / 400))`.  `expectedScore w l` is the source's
`expected_winner`, `expectedScore l w` its `expected_loser`. -/
noncomputable def expectedScore (a b : ℝ) : ℝ :=
  1 / (1 + (10 : ℝ) ^ ((b - a) / 400))

/-- Source lines 132–137: `new_winner = winner + k * (1 - expected_winner)`,
`new_loser = loser + k * (0 - expected_loser)`, both passed to `round`. -/
noncomputable def calculate_elo (winner_elo loser_elo k : ℝ) : ℤ × ℤ :=
  (round (winner_elo + k * (1 - expectedScore winner_elo loser_elo)),
   round (loser_elo + k * (0 - expectedScore loser_elo winner_elo)))

theorem rpow_sub_pos (a b : ℝ) : 0 < (10 : ℝ) ^ ((b - a) / 400) :=
  Real.rpow_pos_of_pos (by norm_num) _

/-- The two expected scores of one call are complementary. -/
theorem expectedScore_add_swap (a b : ℝ) :
    expectedScore a b + expectedScore b a = 1 := by
  unfold expectedScore
  have h1 : (10 : ℝ) ^ ((b - a) / 400) > 0 := rpow_sub_pos a b
  have h2 : (10 : ℝ) ^ ((a - b) / 400) = ((10 : ℝ) ^ ((b - a) / 400))⁻¹ := by
    rw [show (a - b) / 400 = -((b - a) / 400) by ring,
      Real.rpow_neg (by norm_num : (0 : ℝ) ≤ 10)]
  rw [h2]
  have h3 : 1 + (10 : ℝ) ^ ((b - a) / 400) ≠ 0 := by positivity
  have h4 : 1 + ((10 : ℝ) ^ ((b - a) / 400))⁻¹ ≠ 0 := by positivity
  field_simp
  ring

/-- C9: the Elo update is symmetric under swapping winner and loser: the
expected scores of the two calls are complementary (they sum to 1 for
corresponding roles), and each call's winner gain and loser loss are
`k * expectedScore loser winner` — the same function of the
(winner, loser) rating pair in both calls, so `calculate_elo w l k` and
`calculate_elo l w k` are mirror images of one another. -/
theorem calculate_elo_symmetric (w l k : ℝ) :
    expectedScore w l + expectedScore l w = 1 ∧
    calculate_elo w l k =
      (round (w + k * expectedScore l w), round (l - k * expectedScore l w)) ∧
    calculate_elo l w k =
      (round (l + k * expectedScore w l), round (w - k * expectedScore w l)) := by
  have hc : expectedScore w l + expectedScore l w = 1 := expectedScore_add_swap w l
  refine ⟨hc, ?_, ?_⟩
  · unfold calculate_elo
    have h1 : w + k * (1 - expectedScore w l) = w + k * expectedScore l w := by
      have : 1 - expectedScore w l = expectedScore l w := by linarith
      rw [this]
    have h2 : l + k * (0 - expectedScore l w) = l - k * expectedScore l w := by ring
    rw [h1, h2]
  · unfold calculate_elo
    have h1 : l + k * (1 - expectedScore l w) = l + k * expectedScore w l := by
      have : 1 - expectedScore l w = expectedScore w l := by linarith
      rw [this]
    have h2 : w + k * (0 - expectedScore w l) = w - k * expectedScore w l := by ring
    rw [h1, h2]

/-! ### Selection sampler (source lines 139–156, 248–253, 394–408)

Players are modeled as (name, rating) pairs with rational ratings; the
pandas dataframe becomes a list of players in row order. -/

structure Player where
  name : String
  elo : ℚ
deriving DecidableEq

/-- `df[weight_col].min()` (source line 143); `0` for the empty frame only
as a total-function placeholder — the source never reaches that case on an
empty frame without raising. -/
def minElo : List Player → ℚ
  | [] => 0
  | [p] => p.elo
  | p :: q :: ps => min p.elo (minElo (q :: ps))

/-- `df[weight_col].max()` (source line 142). -/
def maxElo : List Player → ℚ
  | [] => 0
  | [p] => p.elo
  | p :: q :: ps => max p.elo (maxElo (q :: ps))

/-- The min-max normalization denominator `max_elo - min_elo` by which
source line 146 divides, with no zero guard. -/
def normDenom (ps : List Player) : ℚ := maxElo ps - minElo ps

/-- Source lines 146–149 for one row: the min-max-normalized rating raised
to the exponent `alpha` (the source always uses the default `alpha=10`). -/
def itemWeight (ps : List Player) (p : Player) : ℚ :=
  ((p.elo - minElo ps) / normDenom ps) ^ 10

/-- The `weight` column right after line 149. -/
def rawWeights (ps : List Player) : List ℚ := ps.map (itemWeight ps)

/-- `df["weight"].sum()` at line 152. -/
def totalWeight (ps : List Player) : ℚ := (rawWeights ps).sum

/-- The `weight` column after the line-152 normalization to sum 1. -/
def normWeights (ps : List Player) : List ℚ :=
  (rawWeights ps).map (fun w => w / totalWeight ps)

/-- Models `random.choices(population, weights=ws)` at the random draw
`x ∈ [0, total)`: CPython forms the cumulative weights and bisects them
with `hi = len - 1`, which selects the first index whose cumulative weight
strictly exceeds `x` and clamps to the last index when none of the first
`len - 1` cumulative weights does. -/
def choicesIndex : List ℚ → ℚ → ℕ
  | [], _ => 0
  | [_], _ => 0
  | w :: b :: ws, x =>
    if x < w then 0 else choicesIndex (b :: ws) (x - w) + 1

/-- Source lines 139–156.  When `max_elo = min_elo`, line 146 computes
`0/0`, which is IEEE NaN under pandas; every weight is then NaN, the
cumulative weights handed to `random.choices` are all NaN, and CPython's
bisection (every `NaN < NaN` comparison is false, ≤ 3.11 semantics)
deterministically returns the last index.  The first branch below models
that NaN propagation — it is not a guard present in the source.  Otherwise
the weights are well defined and the draw follows `choicesIndex`.  An
empty frame yields `none` (the source would raise). -/
def aggressive_weighted_selection (ps : List Player) (x : ℚ) : Option Player :=
  if maxElo ps = minElo ps then ps.get? (ps.length - 1)
  else ps.get? (choicesIndex (normWeights ps) x)

/-- Source lines 250–252 and 401–404: the close-rating candidate frame
`players[(players["elo"] > pivot - 50) & (players["elo"] < pivot + 50)]`. -/
def player2_candidates (ps : List Player) (pivot : ℚ) : List Player :=
  ps.filter (fun p => decide (pivot - 50 < p.elo) && decide (p.elo < pivot + 50))

/-- Source lines 253 and 408: draw player 2 from the candidate frame, or
from the full frame when the candidate frame is empty. -/
def pickPlayer2 (ps : List Player) (p1 : Player) (x : ℚ) : Option Player :=
  if (player2_candidates ps p1.elo).isEmpty then aggressive_weighted_selection ps x
  else aggressive_weighted_selection (player2_candidates ps p1.elo) x

/-- Source lines 248–253 (identically 394–408): draw player 1 by weighted
selection over the full frame at random draw `x1`, then player 2 at `x2`. -/
def makeMatchup (ps : List Player) (x1 x2 : ℚ) : Option (Player × Player) :=
  match aggressive_weighted_selection ps x1 with
  | none => none
  | some p1 =>
    match pickPlayer2 ps p1 x2 with
    | none => none
    | some p2 => some (p1, p2)

theorem minElo_cons (p q : Player) (ps : List Player) :
    minElo (p :: q :: ps) = min p.elo (minElo (q :: ps)) := rfl

theorem maxElo_cons (p q : Player) (ps : List Player) :
    maxElo (p :: q :: ps) = max p.elo (maxElo (q :: ps)) := rfl

theorem minElo_le {ps : List Player} {p : Player} (h : p ∈ ps) :
    minElo ps ≤ p.elo := by
  induction ps with
  | nil => cases h
  | cons a t ih =>
    cases t with
    | nil =>
      rcases List.mem_singleton.mp h with rfl
      exact le_refl _
    | cons b t2 =>
      rw [minElo_cons]
      rcases List.mem_cons.mp h with rfl | hmem
      · exact min_le_left _ _
      · exact le_trans (min_le_right _ _) (ih hmem)

theorem le_maxElo {ps : List Player} {p : Player} (h : p ∈ ps) :
    p.elo ≤ maxElo ps := by
  induction ps with
  | nil => cases h
  | cons a t ih =>
    cases t with
    | nil =>
      rcases List.mem_singleton.mp h with rfl
      exact le_refl _
    | cons b t2 =>
      rw [maxElo_cons]
      rcases List.mem_cons.mp h with rfl | hmem
      · exact le_max_left _ _
      · exact le_trans (ih hmem) (le_max_right _ _)

theorem maxElo_mem {ps : List Player} (h : ps ≠ []) :
    ∃ p ∈ ps, p.elo = maxElo ps := by
  induction ps with
  | nil => exact absurd rfl h
  | cons a t ih =>
    cases t with
    | nil => exact ⟨a, List.mem_singleton_self a, rfl⟩
    | cons b t2 =>
      rcases ih (by simp) with ⟨q, hq, hqe⟩
      rw [maxElo_cons]
      rcases le_total a.elo (maxElo (b :: t2)) with hle | hle
      · exact ⟨q, List.mem_cons_of_mem a hq, by rw [hqe, max_eq_right hle]⟩
      · exact ⟨a, List.mem_cons_self a _, by rw [max_eq_left hle]⟩

theorem le_minElo {ps : List Player} {c : ℚ} (h : ps ≠ [])
    (hall : ∀ q ∈ ps, c ≤ q.elo) : c ≤ minElo ps := by
  induction ps with
  | nil => exact absurd rfl h
  | cons a t ih =>
    cases t with
    | nil => exact hall a (List.mem_cons_self a _)
    | cons b t2 =>
      rw [minElo_cons]
      exact le_min (hall a (List.mem_cons_self a _))
        (ih (by simp) (fun q hq => hall q (List.mem_cons_of_mem a hq)))

theorem maxElo_le {ps : List Player} {c : ℚ} (h : ps ≠ [])
    (hall : ∀ q ∈ ps, q.elo ≤ c) : maxElo ps ≤ c := by
  induction ps with
  | nil => exact absurd rfl h
  | cons a t ih =>
    cases t with
    | nil => exact hall a (List.mem_cons_self a _)
    | cons b t2 =>
      rw [maxElo_cons]
      exact max_le (hall a (List.mem_cons_self a _))
        (ih (by simp) (fun q hq => hall q (List.mem_cons_of_mem a hq)))

theorem minElo_eq_of_isMin {ps : List Player} {pm : Player} (hmem : pm ∈ ps)
    (hlb : ∀ q ∈ ps, pm.elo ≤ q.elo) : minElo ps = pm.elo :=
  le_antisymm (minElo_le hmem) (le_minElo (List.ne_nil_of_mem hmem) hlb)

theorem rat_sum_nonneg {l : List ℚ} (h : ∀ b ∈ l, 0 ≤ b) : 0 ≤ l.sum := by
  induction l with
  | nil => simp
  | cons a t ih =>
    rw [List.sum_cons]
    have ha := h a (List.mem_cons_self a _)
    have ht := ih (fun b hb => h b (List.mem_cons_of_mem a hb))
    linarith

theorem rat_sum_pos {l : List ℚ} {a : ℚ} (hmem : a ∈ l) (hpos : 0 < a)
    (hnn : ∀ b ∈ l, 0 ≤ b) : 0 < l.sum := by
  induction l with
  | nil => cases hmem
  | cons c t ih =>
    rw [List.sum_cons]
    rcases List.mem_cons.mp hmem with rfl | hmem2
    · have := rat_sum_nonneg (fun b hb => hnn b (List.mem_cons_of_mem a hb))
      linarith
    · have hc := hnn c (List.mem_cons_self c _)
      have := ih hmem2 (fun b hb => hnn b (List.mem_cons_of_mem c hb))
      linarith

/-- An index selected by `choicesIndex` on nonnegative weights from an
in-range draw always carries a strictly positive weight. -/
theorem choicesIndex_pos_weight :
    ∀ (ws : List ℚ) (x : ℚ), (∀ w ∈ ws, 0 ≤ w) → 0 ≤ x → x < ws.sum →
      ∃ w, ws.get? (choicesIndex ws x) = some w ∧ 0 < w := by
  intro ws
  induction ws with
  | nil =>
    intro x _ hx0 hx1
    simp at hx1
    exact absurd (lt_of_le_of_lt hx0 hx1) (lt_irrefl 0)
  | cons a t ih =>
    intro x hnn hx0 hx1
    cases t with
    | nil =>
      refine ⟨a, rfl, ?_⟩
      simp [List.sum_cons] at hx1
      exact lt_of_le_of_lt hx0 hx1
    | cons b t2 =>
      by_cases hlt : x < a
      · exact ⟨a, by simp [choicesIndex, hlt], lt_of_le_of_lt hx0 hlt⟩
      · push_neg at hlt
        have hrec := ih (x - a)
          (fun w hw => hnn w (List.mem_cons_of_mem a hw))
          (by linarith)
          (by rw [List.sum_cons] at hx1; linarith)
        rcases hrec with ⟨w, hw, hwpos⟩
        refine ⟨w, ?_, hwpos⟩
        have hbr : choicesIndex (a :: b :: t2) x =
            choicesIndex (b :: t2) (x - a) + 1 := by
          simp [choicesIndex, not_lt.mpr hlt]
        rw [hbr, List.get?_cons_succ]
        exact hw

theorem itemWeight_nonneg (ps : List Player) (p : Player) :
    0 ≤ itemWeight ps p := by
  unfold itemWeight
  have h : ((p.elo - minElo ps) / normDenom ps) ^ 10 =
      (((p.elo - minElo ps) / normDenom ps) ^ 5) ^ 2 := by ring
  rw [h]
  exact sq_nonneg _

/-- C10: when the ratings are not all equal, an item holding the minimum
rating gets min-max-normalized rating 0, hence weight `0 ^ 10 = 0`, and an
item that is the unique minimum is never returned by
`aggressive_weighted_selection` for any in-range random draw. -/
theorem minimum_rated_never_selected (ps : List Player) (pm : Player) (x : ℚ)
    (hmem : pm ∈ ps)
    (hne : minElo ps ≠ maxElo ps)
    (hmin : ∀ q ∈ ps, q ≠ pm → pm.elo < q.elo)
    (hx0 : 0 ≤ x) (hx1 : x < (normWeights ps).sum) :
    itemWeight ps pm = 0 ∧ aggressive_weighted_selection ps x ≠ some pm := by
  have hlb : ∀ q ∈ ps, pm.elo ≤ q.elo := by
    intro q hq
    by_cases hqe : q = pm
    · rw [hqe]
    · exact le_of_lt (hmin q hq hqe)
  have hminEq : minElo ps = pm.elo := minElo_eq_of_isMin hmem hlb
  have hw0 : itemWeight ps pm = 0 := by
    unfold itemWeight
    rw [hminEq, sub_self, zero_div]
    norm_num
  refine ⟨hw0, ?_⟩
  have hne2 : ps ≠ [] := List.ne_nil_of_mem hmem
  have hdenom : normDenom ps ≠ 0 := by
    unfold normDenom
    exact sub_ne_zero.mpr (Ne.symm hne)
  have hT : 0 < totalWeight ps := by
    rcases maxElo_mem hne2 with ⟨q, hq, hqe⟩
    have hq1 : itemWeight ps q = 1 := by
      unfold itemWeight
      rw [hqe]
      rw [show maxElo ps - minElo ps = normDenom ps from rfl, div_self hdenom]
      norm_num
    have hmemw : itemWeight ps q ∈ rawWeights ps := List.mem_map_of_mem _ hq
    exact rat_sum_pos hmemw (by rw [hq1]; norm_num)
      (by
        intro b hb
        rcases List.mem_map.mp hb with ⟨r, _, rfl⟩
        exact itemWeight_nonneg ps r)
  have hnnN : ∀ w ∈ normWeights ps, 0 ≤ w := by
    intro w hw
    rcases List.mem_map.mp hw with ⟨r, hr, rfl⟩
    rcases List.mem_map.mp hr with ⟨p, _, rfl⟩
    exact div_nonneg (itemWeight_nonneg ps p) (le_of_lt hT)
  intro hsel
  have hcond : ¬ (maxElo ps = minElo ps) := fun h => hne h.symm
  rw [aggressive_weighted_selection, if_neg hcond] at hsel
  rcases choicesIndex_pos_weight (normWeights ps) x hnnN hx0 hx1 with
    ⟨w, hwget, hwpos⟩
  have hmapped : normWeights ps =
      ps.map (fun p => itemWeight ps p / totalWeight ps) := by
    unfold normWeights rawWeights
    rw [List.map_map]
    rfl
  rw [hmapped] at hsel
  rw [hmapped, List.get?_map, hsel] at hwget
  simp only [Option.map_some'] at hwget
  have hw : w = 0 := by
    have := Option.some.inj hwget
    rw [← this, hw0, zero_div]
  rw [hw] at hwpos
  exact lt_irrefl 0 hwpos

/-- C8: the close-rating candidate set contains exactly the items whose
rating lies strictly within `(pivot - 50, pivot + 50)`, and when the
candidate set around player 1's rating is empty, player 2 is drawn by
weighted selection over the full item collection. -/
theorem close_candidates_band_and_fallback (ps : List Player) (pivot : ℚ)
    (p p1 : Player) (x : ℚ)
    (hempty : player2_candidates ps p1.elo = []) :
    (p ∈ player2_candidates ps pivot ↔
      p ∈ ps ∧ pivot - 50 < p.elo ∧ p.elo < pivot + 50) ∧
    pickPlayer2 ps p1 x = aggressive_weighted_selection ps x := by
  constructor
  · simp [player2_candidates, List.mem_filter, Bool.and_eq_true,
      decide_eq_true_eq, and_assoc]
  · simp [pickPlayer2, hempty]

/-- C7 (amended): there is no guard against drawing the same item twice —
the close-rating candidate set for the second draw always contains the
first pick itself, and when the first pick is its only close candidate the
second draw necessarily returns the first pick again, for every random
input. -/
theorem no_self_matchup_guard (ps : List Player) (p1 : Player) (x : ℚ)
    (hmem : p1 ∈ ps) :
    p1 ∈ player2_candidates ps p1.elo ∧
    (player2_candidates ps p1.elo = [p1] → pickPlayer2 ps p1 x = some p1) := by
  constructor
  · refine List.mem_filter.mpr ⟨hmem, ?_⟩
    simp only [Bool.and_eq_true, decide_eq_true_eq]
    constructor <;> linarith
  · intro h
    simp [pickPlayer2, h, aggressive_weighted_selection, maxElo, minElo]

/-- C3 (amended): when all ratings in a nonempty collection are equal, the
min-max normalization denominator is 0 — line 146 performs `0/0` with no
division-by-zero guard, yielding NaN weights — and the resulting draw is
not uniform: under CPython (≤ 3.11) semantics it deterministically returns
the last row, independently of the random input (Python ≥ 3.12 instead
raises `ValueError` on the non-finite weight total). -/
theorem all_equal_ratings_degenerate (ps : List Player) (c x y : ℚ)
    (hne : ps ≠ []) (hall : ∀ q ∈ ps, q.elo = c) :
    normDenom ps = 0 ∧
    aggressive_weighted_selection ps x = ps.get? (ps.length - 1) ∧
    aggressive_weighted_selection ps x = aggressive_weighted_selection ps y := by
  rcases List.exists_mem_of_ne_nil ps hne with ⟨p0, hp0⟩
  have hmin : minElo ps = c := by
    refine le_antisymm ?_ ?_
    · rw [← hall p0 hp0]
      exact minElo_le hp0
    · exact le_minElo hne (fun q hq => le_of_eq (hall q hq).symm)
  have hmax : maxElo ps = c := by
    refine le_antisymm ?_ ?_
    · exact maxElo_le hne (fun q hq => le_of_eq (hall q hq))
    · rw [← hall p0 hp0]
      exact le_maxElo hp0
  have heq : maxElo ps = minElo ps := by rw [hmax, hmin]
  refine ⟨?_, ?_, ?_⟩
  · unfold normDenom
    rw [hmax, hmin]
    ring
  · rw [aggressive_weighted_selection, if_pos heq]
  · rw [aggressive_weighted_selection, if_pos heq,
      aggressive_weighted_selection, if_pos heq]

/-! ### Concrete collections used by counterexamples and witnesses -/

def pSelA : Player := ⟨"a", 1500⟩

def pSelB : Player := ⟨"b", 1600⟩

def psSel : List Player := [pSelA, pSelB]

def pEqA : Player := ⟨"alpha", 1500⟩

def pEqB : Player := ⟨"beta", 1500⟩

def psEq : List Player := [pEqA, pEqB]

def pC8 : Player := ⟨"gamma", 1500⟩

def psC8 : List Player := [pC8]

def pC8far : Player := ⟨"delta", 2000⟩

theorem minElo_psSel : minElo psSel = 1500 := by
  show min (1500 : ℚ) 1600 = 1500
  exact min_eq_left (by norm_num)

theorem maxElo_psSel : maxElo psSel = 1600 := by
  show max (1500 : ℚ) 1600 = 1600
  exact max_eq_right (by norm_num)

theorem normDenom_psSel : normDenom psSel = 100 := by
  unfold normDenom
  rw [maxElo_psSel, minElo_psSel]
  norm_num

theorem itemWeight_psSel_A : itemWeight psSel pSelA = 0 := by
  unfold itemWeight
  rw [minElo_psSel]
  norm_num [pSelA]

theorem itemWeight_psSel_B : itemWeight psSel pSelB = 1 := by
  unfold itemWeight
  rw [minElo_psSel, normDenom_psSel]
  norm_num [pSelB]

theorem normWeights_psSel : normWeights psSel = [0, 1] := by
  have hraw : rawWeights psSel = [0, 1] := by
    show [itemWeight psSel pSelA, itemWeight psSel pSelB] = [0, 1]
    rw [itemWeight_psSel_A, itemWeight_psSel_B]
  have htot : totalWeight psSel = 1 := by
    unfold totalWeight
    rw [hraw]
    norm_num
  unfold normWeights
  rw [hraw, htot]
  norm_num

theorem choicesIndex_psSel (x : ℚ) (hx0 : 0 ≤ x) :
    choicesIndex [0, 1] x = 1 := by
  have h : ¬ x < (0 : ℚ) := not_lt.mpr hx0
  simp [choicesIndex, h]

theorem sel_psSel (x : ℚ) (hx0 : 0 ≤ x) :
    aggressive_weighted_selection psSel x = some pSelB := by
  rw [aggressive_weighted_selection,
    if_neg (by rw [maxElo_psSel, minElo_psSel]; norm_num),
    normWeights_psSel, choicesIndex_psSel x hx0]
  rfl

theorem cands_psSel_B : player2_candidates psSel pSelB.elo = [pSelB] := by
  unfold player2_candidates psSel
  rw [List.filter_cons, List.filter_cons, List.filter_nil]
  norm_num [pSelA, pSelB]

/-- C7 is false as stated: on the two-player collection `psSel` the
weighted draw must pick `b` (the minimum-rated `a` has weight 0), `b`'s
close-candidate set is `[b]` alone, and the second draw returns `b` again,
so the constructed matchup pairs `b` against itself. -/
theorem makeMatchup_same_item :
    makeMatchup psSel 0 0 = some (pSelB, pSelB) := by
  have hp2 : pickPlayer2 psSel pSelB 0 = some pSelB := by
    unfold pickPlayer2
    rw [cands_psSel_B]
    have hsingle : aggressive_weighted_selection [pSelB] 0 = some pSelB := by
      rw [aggressive_weighted_selection,
        if_pos (show maxElo [pSelB] = minElo [pSelB] from rfl)]
      rfl
    simp [hsingle]
  rw [makeMatchup, sel_psSel 0 (le_refl 0)]
  simp [hp2]

theorem minElo_psEq : minElo psEq = 1500 := by
  show min (1500 : ℚ) 1500 = 1500
  exact min_self _

theorem maxElo_psEq : maxElo psEq = 1500 := by
  show max (1500 : ℚ) 1500 = 1500
  exact max_self _

theorem normDenom_psEq : normDenom psEq = 0 := by
  unfold normDenom
  rw [maxElo_psEq, minElo_psEq]
  ring

theorem sel_psEq (x : ℚ) : aggressive_weighted_selection psEq x = some pEqB := by
  rw [aggressive_weighted_selection, if_pos (by rw [maxElo_psEq, minElo_psEq])]
  rfl

/-- C3 is false as stated: with all ratings equal the normalization
denominator is 0 (line 146 divides by zero, producing NaN weights), and
the draw is not uniform — it returns the last row `beta` at every random
input, so `alpha` is never selected. -/
theorem all_equal_not_uniform_counterexample :
    normDenom psEq = 0 ∧
    aggressive_weighted_selection psEq 0 = some pEqB ∧
    aggressive_weighted_selection psEq (1/4) = some pEqB ∧
    aggressive_weighted_selection psEq (3/4) = some pEqB ∧
    pEqA ≠ pEqB :=
  ⟨normDenom_psEq, sel_psEq 0, sel_psEq (1/4), sel_psEq (3/4), by decide⟩

theorem all_equal_ratings_degenerate_witness :
    normDenom psEq = 0 ∧
    aggressive_weighted_selection psEq (1/3) = psEq.get? (psEq.length - 1) ∧
    aggressive_weighted_selection psEq (1/3) =
      aggressive_weighted_selection psEq (2/3) :=
  all_equal_ratings_degenerate psEq 1500 (1/3) (2/3) (by decide)
    (by
      intro q hq
      rcases List.mem_cons.mp hq with rfl | hq2
      · rfl
      · rcases List.mem_singleton.mp hq2 with rfl
        rfl)

theorem no_self_matchup_guard_witness :
    pSelB ∈ player2_candidates psSel pSelB.elo ∧
    (player2_candidates psSel pSelB.elo = [pSelB] →
      pickPlayer2 psSel pSelB 0 = some pSelB) :=
  no_self_matchup_guard psSel pSelB 0 (by decide)

theorem cands_psC8_far : player2_candidates psC8 pC8far.elo = [] := by
  unfold player2_candidates psC8
  rw [List.filter_cons, List.filter_nil]
  norm_num [pC8, pC8far]

theorem close_candidates_band_and_fallback_witness :
    player2_candidates psC8 pC8far.elo = [] ∧
    pickPlayer2 psC8 pC8far 0 = aggressive_weighted_selection psC8 0 :=
  ⟨cands_psC8_far,
    (close_candidates_band_and_fallback psC8 1500 pC8 pC8far 0
      cands_psC8_far).2⟩

theorem minimum_rated_never_selected_witness :
    itemWeight psSel pSelA = 0 ∧
    aggressive_weighted_selection psSel (1/2) ≠ some pSelA :=
  minimum_rated_never_selected psSel pSelA (1/2) (by decide)
    (by rw [minElo_psSel, maxElo_psSel]; norm_num)
    (by
      intro q hq hqne
      rcases List.mem_cons.mp hq with rfl | hq2
      · exact absurd rfl hqne
      · rcases List.mem_singleton.mp hq2 with rfl
        norm_num [pSelA, pSelB])
    (by norm_num)
    (by rw [normWeights_psSel]; norm_num)

/-! ### Participation ledger (source lines 77–129)

A `UserVotes` sheet row: `username, total_votes, weekly_votes, last_voted`
(columns C1–C4).  Spreadsheet cells are strings, as delivered by
`row_values`.  The session's `user_data_cache` is a second list of rows
whose usernames `get_user_data` has lower-cased (line 87); row lookups use
the cache while cell values are read back from the sheet (line 106). -/

structure UserRow where
  username : String
  total : String
  weekly : String
  lastVoted : String
deriving DecidableEq

/-- Python `str.lower` (character-wise lower-casing of the underlying
character list). -/
def strLower (s : String) : String := ⟨s.data.map Char.toLower⟩

/-- Source line 87 / line 97: lower-case the username column. -/
def lowerRows (rows : List UserRow) : List UserRow :=
  rows.map (fun r => { r with username := strLower r.username })

/-- Python `str.isdigit` on ASCII cell contents: nonempty and all digits. -/
def pyIsDigit (s : String) : Bool :=
  !s.data.isEmpty && s.data.all Char.isDigit

/-- Numeric value of a digit string. -/
def digitsVal (cs : List Char) : Nat :=
  cs.foldl (fun a c => a * 10 + (c.toNat - 48)) 0

def isSpaceChar (c : Char) : Bool := c == ' '

/-- Python `str.strip()` restricted to spaces. -/
def trimChars (cs : List Char) : List Char :=
  ((cs.dropWhile isSpaceChar).reverse.dropWhile isSpaceChar).reverse

def pyIntChars : List Char → Option Int
  | '-' :: cs =>
    if !cs.isEmpty && cs.all Char.isDigit then some (-(digitsVal cs : Int))
    else none
  | '+' :: cs =>
    if !cs.isEmpty && cs.all Char.isDigit then some ((digitsVal cs : Int))
    else none
  | cs =>
    if !cs.isEmpty && cs.all Char.isDigit then some ((digitsVal cs : Int))
    else none

/-- Python `int(s)`: `none` models the `ValueError` raised on a
non-numeric string (whitespace is stripped and one leading sign is
accepted, as `int` does). -/
def pyInt (s : String) : Option Int := pyIntChars (trimChars s.data)

/-- Source lines 108–109: `int(values[i]) if values[i].isdigit() else 0`. -/
def parseCount (s : String) : Int :=
  if pyIsDigit s then (digitsVal s.data : Int) else 0

/-- The per-row effect of `votes_sheet.batch_update(updates)` (line 128):
each update addresses one column (2 = total, 3 = weekly, 4 = last voted)
of the same row, and the Sheets values batch applies the ranges in request
order, so a later write to the same cell wins. -/
def applyUpdates (r : UserRow) (updates : List (Nat × String)) : UserRow :=
  updates.foldl
    (fun row u =>
      if u.1 = 2 then { row with total := u.2 }
      else if u.1 = 3 then { row with weekly := u.2 }
      else if u.1 = 4 then { row with lastVoted := u.2 }
      else row)
    r

structure UpdateUserVoteResult where
  sheet : List UserRow
  cacheRefreshed : Bool
deriving DecidableEq

/-- Source lines 92–129, `update_user_vote(username, count_vote)`.
`cache` is the session's `user_data_cache` (used for membership and row
lookup), `sheetRows` the `UserVotes` sheet body (read by `row_values` and
written by `append_row` / `batch_update`); `today` is today's ISO date and
`isMonday` the value of `datetime.datetime.today().weekday() == 0`.
`Except.error` models an uncaught Python exception:
* line 100: absent user (or empty frame) → `append_row` with the
  *original-case* username and counters 1/0;
* line 105: the row index is taken from `df[df["username"] == username]`
  — the *raw* username against the lower-cased column — and `.index[0]`
  raises `IndexError` when that exact-case match finds nothing;
* lines 115–116: Monday reset queues a write of 0 to the weekly column;
* lines 118–122: counting queues `total+1` / `weekly+1` computed from the
  `isdigit`-guarded values, but the change checks call `int(values[i])`
  unguarded, raising `ValueError` on non-numeric cells;
* lines 124–128: stamp the date if changed; batch only if updates exist,
  then refresh the cache (line 129). -/
def update_user_vote (cache sheetRows : List UserRow) (username today : String)
    (isMonday countVote : Bool) : Except String UpdateUserVoteResult :=
  let lowered := cache.map (fun r => strLower r.username)
  if cache.isEmpty || !(lowered.contains (strLower username)) then
    Except.ok ⟨sheetRows ++
      [⟨username, if countVote then "1" else "0",
        if countVote then "1" else "0", today⟩], false⟩
  else
    match lowered.findIdx? (fun u => u == username) with
    | none => Except.error "IndexError"
    | some i =>
      match sheetRows.get? i with
      | none => Except.error "IndexError"
      | some v =>
        let totalV : Int := parseCount v.total
        let weeklyV : Int := parseCount v.weekly
        let u1 : List (Nat × String) :=
          if isMonday && v.lastVoted != today then [(3, "0")] else []
        let cont : Except String (List (Nat × String)) :=
          if countVote then
            match pyInt v.total, pyInt v.weekly with
            | none, _ => Except.error "ValueError"
            | some _, none => Except.error "ValueError"
            | some t, some wk =>
              Except.ok (u1 ++
                (if totalV + 1 != t then [(2, toString (totalV + 1))] else [])
                ++ (if weeklyV + 1 != wk then [(3, toString (weeklyV + 1))]
                  else []))
          else Except.ok u1
        match cont with
        | Except.error e => Except.error e
        | Except.ok u3 =>
          let updates := u3 ++
            (if v.lastVoted != today then [(4, today)] else [])
          if updates.isEmpty then Except.ok ⟨sheetRows, false⟩
          else Except.ok ⟨sheetRows.set i (applyUpdates v updates), true⟩

/-- Source lines 26–27 of `get_players`: the default rating 1500 is
written to the whole `elo` column only when the column is missing or
*every* cell is null (`df["elo"].isnull().all()`); a cell is modeled as
`Option ℚ` with `none` for a missing/null value. -/
def fillElo (recs : List (String × Option ℚ)) : List (String × Option ℚ) :=
  if recs.all (fun r => r.2.isNone) then recs.map (fun r => (r.1, some 1500))
  else recs

def rowAlice : UserRow := ⟨"alice", "5", "7", "2026-10-06"⟩

def rowBadCount : UserRow := ⟨"alice", "N/A", "3", "2026-10-10"⟩

/-- C2 fails on the code (code bug): touching the existing user `alice`
(total "5", weekly "7", last voted 2026-10-06) on a Monday 2026-10-12 with
`count_vote=True` queues the weekly reset `C3 ← 0` but then queues
`C3 ← weekly+1` computed from the *pre-reset* value in the same batch;
the later range wins, so the persisted weekly count is "8", not "1". -/
theorem monday_reset_overwritten :
    update_user_vote [rowAlice] [rowAlice] "alice" "2026-10-12" true true =
      Except.ok ⟨[⟨"alice", "6", "8", "2026-10-12"⟩], true⟩ ∧
    ("8" : String) ≠ "1" := by
  constructor
  · rfl
  · decide

/-- C4 fails on the code (code bug): with the ledger holding `alice`, a
touch by `Alice` passes the lower-cased membership test but the row lookup
filters the lower-cased column by the raw `Alice` and `.index[0]` raises
`IndexError`; and a first-sight touch by `Bob` appends the original-case
username, not its lower-cased form. -/
theorem case_insensitive_lookup_fails :
    update_user_vote [rowAlice] [rowAlice] "Alice" "2026-10-12" false false =
      Except.error "IndexError" ∧
    update_user_vote [] [] "Bob" "2026-10-12" false false =
      Except.ok ⟨[⟨"Bob", "0", "0", "2026-10-12"⟩], false⟩ ∧
    ("Bob" : String) ≠ strLower "Bob" := by
  refine ⟨rfl, rfl, ?_⟩
  decide

/-- C5 fails on the code (code bug): a counted touch on an existing row
whose total-votes cell is the non-numeric "N/A" computes the documented
default 0 (line 108) but then raises `ValueError` at the unguarded
`int(values[1])` in the change check (line 119); and `get_players` leaves
an absent rating untouched (no per-item 1500 default) whenever any other
row has a rating. -/
theorem unparseable_fields_raise :
    update_user_vote [rowBadCount] [rowBadCount] "alice" "2026-10-12"
      false true = Except.error "ValueError" ∧
    fillElo [("a", some 1600), ("b", none)] =
      [("a", some 1600), ("b", none)] := by
  constructor
  · rfl
  · rw [fillElo, if_neg (by decide)]

/-! ### Vote orchestrator (source lines 158–228)

`process_vote(selected_player)` computes the new ratings with
`calculate_elo`, calls `update_google_sheet` (which *catches* the Sheets
`APIError` internally, displays `st.error`, and returns normally — lines
207–210), calls `update_user_vote(username, count_vote=True)` (line 221),
and then stores `updated_elo` and `selected_player` in the session state
(lines 224–225).  The session state tracked here holds the pieces the
spec's orchestrator/cache claims are about; the remote player sheet's own
cells are not tracked (no claim reads them back), and the two new rating
values are passed in as the engine's outputs `e1, e2` since the
state-transition claims do not depend on their numeric values.  The error
log models the `st.error` banners shown to the user; the touch log records
each `update_user_vote` call with its `count_vote` flag.  An
`Except.error` result models an exception escaping `process_vote` (which
has no try/except of its own), in which case lines 224–225 never run. -/

structure SessionState where
  playersCache : List Player
  userCache : List UserRow
  ledgerSheet : List UserRow
  selectedPlayer : Option String
  updatedElo : List (String × Int)
  errors : List String
  touches : List (String × Bool)
deriving DecidableEq

def process_vote (s : SessionState) (p1 p2 : Player) (selected : String)
    (username today : String) (isMonday sheetFails : Bool) (e1 e2 : Int) :
    Except String SessionState :=
  match update_user_vote s.userCache s.ledgerSheet username today isMonday
      true with
  | Except.error e => Except.error e
  | Except.ok r =>
    Except.ok
      { playersCache := s.playersCache
        userCache := if r.cacheRefreshed then lowerRows r.sheet
          else s.userCache
        ledgerSheet := r.sheet
        selectedPlayer := some selected
        updatedElo := [(p1.name, e1), (p2.name, e2)]
        errors := if sheetFails then
            s.errors ++ ["Google Sheets API Error"] else s.errors
        touches := s.touches ++ [(username, true)] }

/-- C1 (amended): when the Rating Store write fails, `update_google_sheet`
only displays the error and returns normally, and `process_vote` carries
on — the Participation Ledger touch with `counts_as_vote=true` is still
issued, `selected_player` and `updated_elo` are still set, and the vote is
considered cast; the failure never reaches the orchestrator's control
flow. -/
theorem sheet_failure_still_commits (s : SessionState) (p1 p2 : Player)
    (sel u today : String) (mon : Bool) (e1 e2 : Int)
    (r : UpdateUserVoteResult)
    (h : update_user_vote s.userCache s.ledgerSheet u today mon true =
      Except.ok r) :
    ∃ s2, process_vote s p1 p2 sel u today mon true e1 e2 = Except.ok s2 ∧
      s2.errors = s.errors ++ ["Google Sheets API Error"] ∧
      s2.touches = s.touches ++ [(u, true)] ∧
      s2.selectedPlayer = some sel ∧
      s2.updatedElo = [(p1.name, e1), (p2.name, e2)] := by
  have hp : process_vote s p1 p2 sel u today mon true e1 e2 =
      Except.ok
        { playersCache := s.playersCache
          userCache := if r.cacheRefreshed then lowerRows r.sheet
            else s.userCache
          ledgerSheet := r.sheet
          selectedPlayer := some sel
          updatedElo := [(p1.name, e1), (p2.name, e2)]
          errors := s.errors ++ ["Google Sheets API Error"]
          touches := s.touches ++ [(u, true)] } := by
    unfold process_vote
    rw [h]
    rfl
  exact ⟨_, hp, rfl, rfl, rfl, rfl⟩

/-- C6 (amended): after `process_vote` commits, the user-data cache is
refreshed only when `update_user_vote` issued a batch update (not on the
new-user append path), and the cached player ratings (`players_cache`) are
never invalidated or updated — the new ratings reach the display only
through the separate `updated_elo` session entry, while rank data stays at
its pre-vote values. -/
theorem caches_after_process_vote (s : SessionState) (p1 p2 : Player)
    (sel u today : String) (mon fails : Bool) (e1 e2 : Int)
    (r : UpdateUserVoteResult)
    (h : update_user_vote s.userCache s.ledgerSheet u today mon true =
      Except.ok r) :
    ∃ s2, process_vote s p1 p2 sel u today mon fails e1 e2 = Except.ok s2 ∧
      s2.playersCache = s.playersCache ∧
      s2.userCache =
        (if r.cacheRefreshed then lowerRows r.sheet else s.userCache) ∧
      s2.updatedElo = [(p1.name, e1), (p2.name, e2)] := by
  have hp : process_vote s p1 p2 sel u today mon fails e1 e2 =
      Except.ok
        { playersCache := s.playersCache
          userCache := if r.cacheRefreshed then lowerRows r.sheet
            else s.userCache
          ledgerSheet := r.sheet
          selectedPlayer := some sel
          updatedElo := [(p1.name, e1), (p2.name, e2)]
          errors := if fails then
              s.errors ++ ["Google Sheets API Error"] else s.errors
          touches := s.touches ++ [(u, true)] } := by
    unfold process_vote
    rw [h]
  exact ⟨_, hp, rfl, rfl, rfl⟩

def rowCarol : UserRow := ⟨"carol", "2", "2", "2026-10-12"⟩

def stateCarol : SessionState :=
  { playersCache := [pSelA, pSelB]
    userCache := [rowCarol]
    ledgerSheet := [rowCarol]
    selectedPlayer := none
    updatedElo := []
    errors := []
    touches := [] }

/-- C1 is false as stated: running `process_vote` while the Rating Store
write fails (`sheetFails = true`) still sets `selected_player` and
`updated_elo`, still issues the counted Participation Ledger touch, and
merely appends the error banner — the vote is treated as cast, not rolled
back. -/
theorem sheet_failure_counterexample :
    process_vote stateCarol pSelA pSelB "b" "carol" "2026-10-12" false true
        1489 1611 =
      Except.ok
        { playersCache := [pSelA, pSelB]
          userCache := [⟨"carol", "3", "3", "2026-10-12"⟩]
          ledgerSheet := [⟨"carol", "3", "3", "2026-10-12"⟩]
          selectedPlayer := some "b"
          updatedElo := [("a", 1489), ("b", 1611)]
          errors := ["Google Sheets API Error"]
          touches := [("carol", true)] } := by
  rfl

def rowDave : UserRow := ⟨"dave", "4", "1", "2026-10-11"⟩

def stateDave : SessionState :=
  { playersCache := [pSelA, pSelB]
    userCache := [rowDave]
    ledgerSheet := [rowDave]
    selectedPlayer := none
    updatedElo := []
    errors := []
    touches := [] }

/-- C6 is false as stated: after a successfully committed vote that moved
`b`'s rating to 1611, the session's `players_cache` still holds `b` at its
pre-vote rating 1600 — the player-ratings cache is never invalidated or
updated, only the separate `updated_elo` entry records the change. -/
theorem players_cache_stale_counterexample :
    process_vote stateDave pSelA pSelB "b" "dave" "2026-10-12" true false
        1489 1611 =
      Except.ok
        { playersCache := [pSelA, pSelB]
          userCache := [⟨"dave", "5", "2", "2026-10-12"⟩]
          ledgerSheet := [⟨"dave", "5", "2", "2026-10-12"⟩]
          selectedPlayer := some "b"
          updatedElo := [("a", 1489), ("b", 1611)]
          errors := []
          touches := [("dave", true)] } ∧
    pSelB.elo = 1600 ∧ stateDave.playersCache = [pSelA, pSelB] := by
  exact ⟨rfl, rfl, rfl⟩

theorem sheet_failure_still_commits_witness :
    ∃ s2, process_vote stateCarol pSelA pSelB "b" "carol" "2026-10-12"
        false true 1489 1611 = Except.ok s2 ∧
      s2.errors = stateCarol.errors ++ ["Google Sheets API Error"] ∧
      s2.touches = stateCarol.touches ++ [("carol", true)] ∧
      s2.selectedPlayer = some "b" ∧
      s2.updatedElo = [(pSelA.name, 1489), (pSelB.name, 1611)] :=
  sheet_failure_still_commits stateCarol pSelA pSelB "b" "carol"
    "2026-10-12" false 1489 1611
    ⟨[⟨"carol", "3", "3", "2026-10-12"⟩], true⟩ rfl

theorem caches_after_process_vote_witness :
    ∃ s2, process_vote stateDave pSelA pSelB "b" "dave" "2026-10-12"
        true false 1489 1611 = Except.ok s2 ∧
      s2.playersCache = stateDave.playersCache ∧
      s2.userCache = (if true then
        lowerRows [⟨"dave", "5", "2", "2026-10-12"⟩] else
          stateDave.userCache) ∧
      s2.updatedElo = [(pSelA.name, 1489), (pSelB.name, 1611)] :=
  caches_after_process_vote stateDave pSelA pSelB "b" "dave" "2026-10-12"
    true false 1489 1611 ⟨[⟨"dave", "5", "2", "2026-10-12"⟩], true⟩ rfl

end CommunityRanks
